import Mathlib

/-!
Verification development for the go-mysql-server core (xiazemin fork).

Shallow embedding of:
  * `sql/plan/group_by.go` — the GroupBy plan node and its two row iterators,
  * `sql/analyzer/resolve_generators.go` — the generator-lifting analyzer rule,
  * the replication stub plan nodes (`ChangeReplicationSource`, `StartReplica`,
    `StopReplica`),
  * `processlist.go` — the process list with per-table/partition progress.

Go machine integers are embedded as `Nat`/`Int` with explicit reduction
modulo `2^64` where overflow matters; Go `(T, error)` returns become
`Except String T`; Go maps become association lists with map update
semantics; Go map *references* (which alias between copied structs) become
indices into an explicit store.
-/

namespace Gms

/-! ## Values and rows

`sql.Row` is `[]interface{}`; the values flowing through the claims are
integers, strings and SQL NULL (`nil`). -/

inductive Value where
  | vNull : Value
  | vInt (n : Int) : Value
  | vStr (s : String) : Value
deriving DecidableEq, Repr

abbrev Row := List Value

/-- Go `fmt.Sprintf("%#v", v)` for the values above: `nil` prints `<nil>`,
integers print in decimal, strings print Go-quoted.  Quoting is modelled for
printable ASCII (escaping `"` and `\`); control characters and non-ASCII
escapes are not needed by any claim. -/
def goQuoteChar (c : Char) : String :=
  if c = '"' then "\\\"" else if c = '\\' then "\\\\" else String.singleton c

def goRepr : Value → String
  | .vNull => "<nil>"
  | .vInt n => toString n
  | .vStr s => "\"" ++ String.join (s.data.map goQuoteChar) ++ "\""

/-- UTF-8 encoding of one code point (Go `[]byte(s)` is the UTF-8 bytes). -/
def utf8EncodeChar (n : Nat) : List Nat :=
  if n < 0x80 then [n]
  else if n < 0x800 then [0xC0 + n / 0x40, 0x80 + n % 0x40]
  else if n < 0x10000 then
    [0xE0 + n / 0x1000, 0x80 + (n / 0x40) % 0x40, 0x80 + n % 0x40]
  else
    [0xF0 + n / 0x40000, 0x80 + (n / 0x1000) % 0x40,
     0x80 + (n / 0x40) % 0x40, 0x80 + n % 0x40]

def utf8Bytes (s : String) : List Nat :=
  (s.data.map (fun c => utf8EncodeChar c.toNat)).flatten

/-! ## CRC64 with the ISO polynomial

Embedding of Go's `hash/crc64` with `crc64.MakeTable(crc64.ISO)` and
`crc64.Checksum`, on `Nat` reduced modulo `2^64`. -/

def crc64ISOPoly : Nat := 0xD800000000000000

def mask64 : Nat := 2 ^ 64 - 1

/-- One shift-and-conditionally-xor step of the table construction. -/
def crcStep (c : Nat) : Nat :=
  if c % 2 = 1 then (c / 2) ^^^ crc64ISOPoly else c / 2

/-- `crc64.MakeTable(crc64.ISO)[b]`: eight `crcStep`s applied to `b`. -/
def crcTableEntry (b : Nat) : Nat := crcStep^[8] b

/-- One `Update` loop iteration: `crc = tab[byte(crc)^v] ^ (crc >> 8)`. -/
def crc64update (crc b : Nat) : Nat :=
  crcTableEntry ((crc ^^^ b) % 256) ^^^ (crc / 256)

/-- `crc64.Checksum(data, table)`: start from `^uint64(0)`, fold the bytes,
complement the result. -/
def crc64checksum (bytes : List Nat) : Nat :=
  mask64 ^^^ bytes.foldl crc64update mask64

/-! ## Expressions

The fragment of `sql.Expression` exercised by `group_by.go` and
`resolve_generators.go`: field references, literals, aliases, the EXPLODE
and Generate functions, aggregations, and an always-failing expression to
model evaluation errors.  `Sum`/`Count`/`Explode`/`Generate` internals live
outside `src/`; their buffer and type behaviour is modelled from the spec
(COUNT starts at 0 and counts rows; SUM starts at NULL; Generate's type is
the type of the EXPLODE argument). -/

inductive SqlType where
  | tNull : SqlType
  | tInt64 : SqlType
  | tText : SqlType
  | tBool : SqlType
  | tArray (elem : SqlType) : SqlType
deriving DecidableEq, Repr

def isArrayType : SqlType → Bool
  | .tArray _ => true
  | _ => false

inductive Expr where
  | lit (v : Value) : Expr
  | getField (i : Nat) (t : SqlType) (name : String) (null : Bool) : Expr
  | alias (name : String) (child : Expr) : Expr
  | explode (child : Expr) : Expr
  | genExpr (child : Expr) : Expr
  | sumAgg (child : Expr) : Expr
  | countAgg : Expr
  | failExpr (msg : String) : Expr
deriving DecidableEq, Repr

def typeOfValue : Value → SqlType
  | .vNull => .tNull
  | .vInt _ => .tInt64
  | .vStr _ => .tText

/-- `Expression.Type()`.  `genExpr`/`explode` forward their child's type
(modelled from the spec: the analyzer's array check is on the EXPLODE
argument's type). -/
def exprType : Expr → SqlType
  | .lit v => typeOfValue v
  | .getField _ t _ _ => t
  | .alias _ c => exprType c
  | .explode c => exprType c
  | .genExpr c => exprType c
  | .sumAgg _ => .tInt64
  | .countAgg => .tInt64
  | .failExpr _ => .tNull

/-- `Expression.IsNullable()`. -/
def exprNullable : Expr → Bool
  | .lit v => v = .vNull
  | .getField _ _ _ null => null
  | .alias _ c => exprNullable c
  | .explode c => exprNullable c
  | .genExpr c => exprNullable c
  | .sumAgg _ => true
  | .countAgg => false
  | .failExpr _ => true

/-- Simplified `Expression.String()` (only used as the fallback column name
in the generator-lifting rule). -/
def exprString : Expr → String
  | .lit v => goRepr v
  | .getField _ _ name _ => name
  | .alias name _ => name
  | .explode c => "EXPLODE(" ++ exprString c ++ ")"
  | .genExpr c => "EXPLODE(" ++ exprString c ++ ")"
  | .sumAgg c => "SUM(" ++ exprString c ++ ")"
  | .countAgg => "COUNT(*)"
  | .failExpr m => m

/-- `Expression.Eval(ctx, row)`.  `getField` reads the row at its index;
`failExpr` models an expression whose evaluation errors. -/
def evalExpr : Expr → Row → Except String Value
  | .lit v, _ => .ok v
  | .getField i _ _ _, r => .ok (r.getD i .vNull)
  | .alias _ c, r => evalExpr c r
  | .explode c, r => evalExpr c r
  | .genExpr c, r => evalExpr c r
  | .sumAgg c, r => evalExpr c r
  | .countAgg, _ => .ok (.vInt 1)
  | .failExpr m, _ => .error m

/-! ## `group_by.go`: aggregation buffers -/

abbrev Buffers := List Row

/-- `fillBuffer` (group_by.go): aggregations get a fresh buffer, aliases
recurse, everything else gets `nil`.  The fresh buffers themselves
(`Count.NewBuffer` = row `[0]`, `Sum.NewBuffer` = row `[nil]`) are modelled
from the spec, their source being outside `src/`. -/
def fillBuffer : Expr → Row
  | .sumAgg _ => [.vNull]
  | .countAgg => [.vInt 0]
  | .alias _ c => fillBuffer c
  | _ => []

/-- SQL addition used by the modelled SUM update: NULL absorbs into the
other operand. -/
def sumAdd : Value → Value → Value
  | .vNull, v => v
  | acc, .vNull => acc
  | .vInt a, .vInt b => .vInt (a + b)
  | acc, _ => acc

/-- `updateBuffer` (group_by.go): aggregations update their buffer, aliases
recurse, other expressions evaluate and become a one-value buffer
(`sql.NewRow(val)`).  The aggregation updates themselves are modelled from
the spec (COUNT increments, SUM adds non-NULL values). -/
def updateBuffer (buffer : Row) (e : Expr) (row : Row) : Except String Row :=
  match e with
  | .sumAgg c => do
    let v ← evalExpr c row
    return [sumAdd (buffer.getD 0 .vNull) v]
  | .countAgg =>
    match buffer.getD 0 (.vInt 0) with
    | .vInt n => .ok [.vInt (n + 1)]
    | _ => .ok [.vInt 1]
  | .alias _ c => updateBuffer buffer c row
  | e => do
    let v ← evalExpr e row
    return [v]

/-- `updateBuffers` (group_by.go): update each selected expression's buffer
in order, stopping at the first error. -/
def updateBuffers (buffers : Buffers) (aggregates : List Expr) (row : Row) :
    Except String Buffers :=
  match aggregates with
  | [] => .ok []
  | a :: rest => do
    let b ← updateBuffer (buffers.getD 0 []) a row
    let bs ← updateBuffers (buffers.drop 1) rest row
    return b :: bs

/-- `evalBuffer` (group_by.go): aggregations evaluate their buffer, aliases
recurse, other expressions return the first buffer value (or `nil` for an
empty buffer).  The modelled `Count.Eval`/`Sum.Eval` return the buffer
value. -/
def evalBuffer (e : Expr) (buffer : Row) : Except String Value :=
  match e with
  | .sumAgg _ => .ok (buffer.getD 0 .vNull)
  | .countAgg => .ok (buffer.getD 0 (.vInt 0))
  | .alias _ c => evalBuffer c buffer
  | _ => .ok (buffer.getD 0 .vNull)

/-- `evalBuffers` (group_by.go): one output value per selected expression. -/
def evalBuffers (buffers : Buffers) (aggregates : List Expr) :
    Except String Row :=
  match aggregates with
  | [] => .ok []
  | a :: rest => do
    let v ← evalBuffer a (buffers.getD 0 [])
    let vs ← evalBuffers (buffers.drop 1) rest
    return v :: vs

/-- `groupingKey` (group_by.go): evaluate every group-by expression, print
each value with `%#v`, join with commas, and CRC64-ISO-checksum the UTF-8
bytes. -/
def groupingKey (exprs : List Expr) (row : Row) : Except String Nat := do
  let vals ← exprs.mapM (fun e => evalExpr e row)
  return crc64checksum (utf8Bytes (String.intercalate "," (vals.map goRepr)))

/-! ## `group_by.go`: the two row iterators

The child iterator of a GroupBy is embedded as the finite list of rows it
will produce followed by its terminal outcome (`none` = `io.EOF`,
`some e` = error). -/

structure ChildIter where
  pending : List Row
  final : Option String
deriving DecidableEq, Repr

/-- Outcome of one `Next` call. -/
inductive NextOut where
  | row (r : Row) : NextOut
  | eof : NextOut
  | err (e : String) : NextOut
deriving DecidableEq, Repr

/-- `groupByIter` (no grouping expressions). -/
structure GBIter where
  selectedExprs : List Expr
  child : ChildIter
  buf : Buffers
  done : Bool
deriving DecidableEq, Repr

/-- `newGroupByIter`: `buf` starts as `len(selectedExprs)` nil rows. -/
def newGroupByIter (selectedExprs : List Expr) (child : ChildIter) : GBIter :=
  ⟨selectedExprs, child, List.replicate selectedExprs.length [], false⟩

/-- The child-draining loop of `groupByIter.Next`: update the buffers with
every remaining child row; on an update error stop there, reporting the
rows not yet consumed. -/
def gbLoop (sel : List Expr) (rows : List Row) (buffers : Buffers) :
    Buffers × List Row × Option String :=
  match rows with
  | [] => (buffers, [], none)
  | r :: rest =>
    match updateBuffers buffers sel r with
    | .error e => (buffers, rest, some e)
    | .ok b => gbLoop sel rest b

/-- `groupByIter.Next`: once done always `io.EOF`; otherwise mark done,
fill fresh buffers, drain the child into them and evaluate. -/
def GBIter.next (it : GBIter) : NextOut × GBIter :=
  if it.done then (.eof, it)
  else
    let buf0 := it.selectedExprs.map fillBuffer
    match gbLoop it.selectedExprs it.child.pending buf0 with
    | (b, rem, some e) =>
      (.err e, ⟨it.selectedExprs, ⟨rem, it.child.final⟩, b, true⟩)
    | (b, _, none) =>
      match it.child.final with
      | some e => (.err e, ⟨it.selectedExprs, ⟨[], some e⟩, b, true⟩)
      | none =>
        match evalBuffers b it.selectedExprs with
        | .error e => (.err e, ⟨it.selectedExprs, ⟨[], none⟩, b, true⟩)
        | .ok row => (.row row, ⟨it.selectedExprs, ⟨[], none⟩, b, true⟩)

/-! The grouping iterator's `KeyValueCache` is a `uint64 → []sql.Row` map;
`Put` overwrites the entry for an existing key, `Get` misses for an absent
one. -/

abbrev Cache := List (Nat × Buffers)

def cacheGet (k : Nat) : Cache → Option Buffers
  | [] => none
  | (k', v) :: rest => if k' = k then some v else cacheGet k rest

def cachePut (k : Nat) (v : Buffers) : Cache → Cache
  | [] => [(k, v)]
  | (k', v') :: rest =>
    if k' = k then (k, v) :: rest else (k', v') :: cachePut k v rest

/-- Result of `groupByGroupingIter.compute`: the cache and first-appearance
key list built so far, the child rows not yet consumed, and the error that
stopped the loop (if any). -/
structure ComputeRes where
  cache : Cache
  keys : List Nat
  remaining : List Row
  stopped : Option String
deriving DecidableEq, Repr

/-- `groupByGroupingIter.compute`: for each child row compute its grouping
key; on a cache miss insert fresh buffers and append the key; update the
key's buffers with the row.  Mirrors the in-place Go loop, additionally
carrying the partially-built state out on error. -/
def computeGo (sel gb : List Expr) :
    List Row → Option String → Cache → List Nat → ComputeRes
  | [], none, c, ks => ⟨c, ks, [], none⟩
  | [], some e, c, ks => ⟨c, ks, [], some e⟩
  | r :: rest, fin, c, ks =>
    match groupingKey gb r with
    | .error e => ⟨c, ks, rest, some e⟩
    | .ok k =>
      let st1 : Cache × List Nat :=
        match cacheGet k c with
        | some _ => (c, ks)
        | none => (cachePut k (sel.map fillBuffer) c, ks ++ [k])
      match cacheGet k st1.1 with
      | none => ⟨st1.1, st1.2, rest, some "key not found in cache"⟩
      | some b =>
        match updateBuffers b sel r with
        | .error e => ⟨st1.1, st1.2, rest, some e⟩
        | .ok b2 => computeGo sel gb rest fin (cachePut k b2 st1.1) st1.2

/-- `groupByGroupingIter`. -/
structure GGIter where
  selectedExprs : List Expr
  groupByExprs : List Expr
  aggregations : Option Cache
  keys : List Nat
  pos : Nat
  child : ChildIter
deriving DecidableEq, Repr

def newGroupByGroupingIter (selectedExprs groupByExprs : List Expr)
    (child : ChildIter) : GGIter :=
  ⟨selectedExprs, groupByExprs, none, [], 0, child⟩

/-- The emission part of `groupByGroupingIter.Next` (reached once
`aggregations` is non-nil): end of keys means `io.EOF`; otherwise fetch the
buffers of the key at `pos`, advance and evaluate. -/
def GGIter.emit (it : GGIter) : NextOut × GGIter :=
  match it.keys.get? it.pos with
  | none => (.eof, it)
  | some k =>
    match cacheGet k (it.aggregations.getD []) with
    | none => (.err "key not found in cache", it)
    | some buffers =>
      let it' := { it with pos := it.pos + 1 }
      match evalBuffers buffers it.selectedExprs with
      | .error e => (.err e, it')
      | .ok row => (.row row, it')

/-- `groupByGroupingIter.Next`: on the first call allocate the cache and
run `compute` (keeping its partial state even on error), then emit. -/
def GGIter.next (it : GGIter) : NextOut × GGIter :=
  match it.aggregations with
  | some _ => it.emit
  | none =>
    let res := computeGo it.selectedExprs it.groupByExprs
      it.child.pending it.child.final [] []
    let it' : GGIter :=
      { it with aggregations := some res.cache, keys := res.keys,
                child := ⟨res.remaining, it.child.final⟩ }
    match res.stopped with
    | some e => (.err e, it')
    | none => it'.emit

/-- Repeatedly call `Next`, collecting the outcomes; stop after the first
`eof` or error (fuel-bounded). -/
def GGIter.drain (it : GGIter) : Nat → List NextOut
  | 0 => []
  | n + 1 =>
    match it.next with
    | (.row r, it') => .row r :: it'.drain n
    | (.eof, _) => [.eof]
    | (.err e, _) => [.err e]

/-! ## Plan nodes

The fragment of the plan-node algebra the claims touch: tables (as generic
leaves), Project, and the Generate node produced by the generator-lifting
rule. -/

inductive Node where
  | tableNode (name : String) : Node
  | project (projections : List Expr) (child : Node) : Node
  | generate (child : Node) (column : Expr) : Node
deriving DecidableEq, Repr

/-- Errors returned by plan-node operations and analyzer rules. -/
inductive GoErr where
  | multipleGenerators : GoErr
  | explodeNotArray (t : SqlType) : GoErr
  | invalidChildrenNumber (nodeType : String) (got expected : Nat) : GoErr
  | generic (msg : String) : GoErr
deriving DecidableEq, Repr

/-! ## `group_by.go`: the GroupBy plan node -/

structure GroupBy where
  selectedExprs : List Expr
  groupByExprs : List Expr
  child : Node
deriving DecidableEq, Repr

def GroupBy.children (p : GroupBy) : List Node := [p.child]

/-- `GroupBy.WithChildren`: exactly one child expected. -/
def GroupBy.withChildren (p : GroupBy) (children : List Node) :
    Except GoErr GroupBy :=
  match children with
  | [c] => .ok ⟨p.selectedExprs, p.groupByExprs, c⟩
  | cs => .error (.invalidChildrenNumber "*plan.GroupBy" cs.length 1)

/-- `GroupBy.Expressions`: selected expressions followed by group-by
expressions. -/
def GroupBy.expressions (p : GroupBy) : List Expr :=
  p.selectedExprs ++ p.groupByExprs

/-- `GroupBy.WithExpressions`: expects `len(selected) + len(groupBy)`
expressions; the first `len(selected)` become the selected expressions and
the rest the group-by expressions. -/
def GroupBy.withExpressions (p : GroupBy) (exprs : List Expr) :
    Except GoErr GroupBy :=
  if exprs.length = p.selectedExprs.length + p.groupByExprs.length then
    .ok ⟨exprs.take p.selectedExprs.length,
         exprs.drop p.selectedExprs.length, p.child⟩
  else
    .error (.invalidChildrenNumber "*plan.GroupBy" exprs.length
      (p.selectedExprs.length + p.groupByExprs.length))

/-- `GroupBy.RowIter`'s dispatch: with no group-by expressions build a
`groupByIter`, otherwise a `groupByGroupingIter`.  The child iterator is
supplied by the child node's `RowIter`. -/
def GroupBy.rowIterFor (p : GroupBy) (childIter : ChildIter) :
    GBIter ⊕ GGIter :=
  if p.groupByExprs.isEmpty then
    .inl (newGroupByIter p.selectedExprs childIter)
  else
    .inr (newGroupByGroupingIter p.selectedExprs p.groupByExprs childIter)

/-! ## `resolve_generators.go` -/

/-- The `switch` of `findGenerator`: an EXPLODE (or an alias directly over
an EXPLODE) is a generator site; the replacement wraps the explode's child
in a `function.Generate` (keeping the alias). -/
def genSite? : Expr → Option Expr
  | .explode c => some (.genExpr c)
  | .alias n (.explode c) => some (.alias n (.genExpr c))
  | _ => none

def isGenSite (e : Expr) : Bool := (genSite? e).isSome

/-- The loop of `findGenerator`, carrying the index/expression found so
far: a second site is `errMultipleGenerators`; the first site is
immediately checked to be of array type (`errExplodeNotArray`). -/
def findGenLoop : List Expr → Nat → Option (Nat × Expr) →
    Except GoErr (Option (Nat × Expr))
  | [], _, acc => .ok acc
  | e :: rest, i, acc =>
    match genSite? e with
    | none => findGenLoop rest (i + 1) acc
    | some g =>
      match acc with
      | some _ => .error .multipleGenerators
      | none =>
        if isArrayType (exprType g) then findGenLoop rest (i + 1) (some (i, g))
        else .error (.explodeNotArray (exprType g))

/-- `findGenerator` (resolve_generators.go). -/
def findGenerator (exprs : List Expr) : Except GoErr (Option (Nat × Expr)) :=
  findGenLoop exprs 0 none

/-- The name given to the generated column: `Name()` when the lifted
expression is `Nameable` (aliases and fields are), its `String()`
otherwise. -/
def exprNameOf : Expr → String
  | .alias n _ => n
  | .getField _ _ n _ => n
  | e => exprString e

/-- The per-node closure of `resolveGenerators`: non-Project nodes are
untouched; a Project with a generator site is rewritten into a Generate
node wrapping the Project, with the lifted expression substituted at its
original index and referenced through a `GetField` at that index. -/
def resolveGeneratorsStep : Node → Except GoErr Node
  | .project projections child =>
    match findGenerator projections with
    | .error e => .error e
    | .ok none => .ok (.project projections child)
    | .ok (some (idx, g)) =>
      .ok (.generate
        (.project (projections.set idx g) child)
        (.getField idx (exprType g) (exprNameOf g) (exprNullable g)))
  | n => .ok n

/-- Modelled from the spec: `plan.TransformUp` (not under `src/`) applies
the function bottom-up, children first. -/
def transformUp (f : Node → Except GoErr Node) : Node → Except GoErr Node
  | .tableNode n => f (.tableNode n)
  | .project ps c => do f (.project ps (← transformUp f c))
  | .generate c col => do f (.generate (← transformUp f c) col)

/-- `resolveGenerators` (resolve_generators.go): `TransformUp` with the
per-Project closure. -/
def resolveGenerators (n : Node) : Except GoErr Node :=
  transformUp resolveGeneratorsStep n

/-! ## Replication stub nodes (`src/unnamed/part_000`) -/

structure ReplicationOption where
  name : String
  value : String
deriving DecidableEq, Repr

structure ChangeReplicationSource where
  options : List ReplicationOption
deriving DecidableEq, Repr

structure StartReplica where
deriving DecidableEq, Repr

structure StopReplica where
deriving DecidableEq, Repr

/-- The error all three `RowIter`s return. -/
def replicationErrMsg : String := "replication statements not supported"

/-- A minimal `*sql.Context` carrying the session id and query pid. -/
structure Ctx where
  sessId : Nat
  pid : Nat
deriving DecidableEq, Repr

/-- `RowIter` returns a `(sql.RowIter, error)` pair; the stubs return no
iterator and the replication error.  The iterator component is `Option
Unit` since no stub ever produces one. -/
def ChangeReplicationSource.rowIter (_ : ChangeReplicationSource)
    (_ : Ctx) (_ : Row) : Option Unit × Option String :=
  (none, some replicationErrMsg)

def ChangeReplicationSource.resolved (_ : ChangeReplicationSource) : Bool :=
  true

def ChangeReplicationSource.children (_ : ChangeReplicationSource) :
    List Node := []

def ChangeReplicationSource.withChildren (c : ChangeReplicationSource)
    (children : List Node) : Except GoErr ChangeReplicationSource :=
  match children with
  | [] => .ok c
  | cs => .error (.invalidChildrenNumber "*plan.ChangeReplicationSource"
      cs.length 0)

def StartReplica.rowIter (_ : StartReplica) (_ : Ctx) (_ : Row) :
    Option Unit × Option String :=
  (none, some replicationErrMsg)

def StartReplica.resolved (_ : StartReplica) : Bool := true

def StartReplica.children (_ : StartReplica) : List Node := []

def StartReplica.withChildren (s : StartReplica) (children : List Node) :
    Except GoErr StartReplica :=
  match children with
  | [] => .ok s
  | cs => .error (.invalidChildrenNumber "*plan.StartReplica" cs.length 0)

def StopReplica.rowIter (_ : StopReplica) (_ : Ctx) (_ : Row) :
    Option Unit × Option String :=
  (none, some replicationErrMsg)

def StopReplica.resolved (_ : StopReplica) : Bool := true

def StopReplica.children (_ : StopReplica) : List Node := []

def StopReplica.withChildren (s : StopReplica) (children : List Node) :
    Except GoErr StopReplica :=
  match children with
  | [] => .ok s
  | cs => .error (.invalidChildrenNumber "*plan.StopReplica" cs.length 0)

/-! ## `processlist.go`

Go maps are embedded as association lists with map-update semantics.  Since
a Go map value is a *reference* (copying a struct that holds a map shares
the map), the two kinds of progress maps live in explicit stores indexed by
`Nat` references:

  * `tstore` holds the `map[string]sql.TableProgress` objects (one is
    allocated by `BeginQuery`),
  * `pstore` holds the `map[string]sql.PartitionProgress` objects (one is
    allocated by each `sql.NewTableProgress`).

A `sql.Process` value then carries an optional `tstore` reference; a
`sql.TableProgress` value carries a `pstore` reference. -/

def alookup {α β : Type} [DecidableEq α] (k : α) : List (α × β) → Option β
  | [] => none
  | (k', v) :: rest => if k' = k then some v else alookup k rest

/-- Map assignment `m[k] = v`: replace the entry or append a new one. -/
def aset {α β : Type} [DecidableEq α] (k : α) (v : β) :
    List (α × β) → List (α × β)
  | [] => [(k, v)]
  | (k', v') :: rest =>
    if k' = k then (k, v) :: rest else (k', v') :: aset k v rest

/-- Map deletion `delete(m, k)`. -/
def adel {α β : Type} [DecidableEq α] (k : α) :
    List (α × β) → List (α × β)
  | [] => []
  | (k', v') :: rest => if k' = k then rest else (k', v') :: adel k rest

/-- `sql.PartitionProgress` (its embedded `sql.Progress`). -/
structure PartitionProgress where
  name : String
  done : Int
  total : Int
deriving DecidableEq, Repr

/-- `sql.TableProgress`: the embedded `sql.Progress` plus a reference to
its `PartitionsProgress` map. -/
structure TableProgress where
  name : String
  done : Int
  total : Int
  partitionsRef : Nat
deriving DecidableEq, Repr

abbrev PMap := List (String × PartitionProgress)

abbrev TMap := List (String × TableProgress)

inductive ProcessCommand where
  | connect : ProcessCommand
  | sleep : ProcessCommand
  | query : ProcessCommand
deriving DecidableEq, Repr

/-- `sql.Process` (the `StartedAt` timestamp is irrelevant to every claim
and omitted; the `Kill` callback is tracked as presence only). -/
structure Process where
  connection : Nat
  command : ProcessCommand
  host : String
  user : String
  query : String
  queryPid : Nat
  hasKill : Bool
  progress : Option Nat
deriving DecidableEq, Repr

/-- `ProcessList` together with the two map stores. -/
structure ProcessList where
  procs : List (Nat × Process)
  byQueryPid : List (Nat × Nat)
  tstore : List TMap
  pstore : List PMap
deriving DecidableEq, Repr

def newProcessList : ProcessList := ⟨[], [], [], []⟩

/-- `ProcessList.AddConnection`. -/
def addConnection (pl : ProcessList) (id : Nat) (addr : String) :
    ProcessList :=
  { pl with procs := (aset id
      ⟨id, .connect, addr, "unauthenticated user", "", 0, false, none⟩
      pl.procs) }

structure Session where
  id : Nat
  addr : String
  user : String
deriving DecidableEq, Repr

/-- `ProcessList.ConnectionReady`. -/
def connectionReady (pl : ProcessList) (sess : Session) : ProcessList :=
  { pl with procs := (aset sess.id
      ⟨sess.id, .sleep, sess.addr, sess.user, "", 0, false, none⟩
      pl.procs) }

def pidAlreadyUsedMsg (pid : Nat) : String :=
  "another process with pid " ++ toString pid ++ " already exists"

/-- `ProcessList.BeginQuery`: fails when the connection is unknown or the
pid is live; otherwise marks the connection's process as a query, allocates
its fresh progress map and registers the pid.  The returned context is the
cancellable derivation of the argument (same ids). -/
def beginQuery (pl : ProcessList) (ctx : Ctx) (query : String) :
    Except String (ProcessList × Ctx) :=
  match alookup ctx.sessId pl.procs with
  | none => .error "internal error: connection not registered with process list"
  | some p =>
    match alookup ctx.pid pl.byQueryPid with
    | some _ => .error (pidAlreadyUsedMsg ctx.pid)
    | none =>
      let ref := pl.tstore.length
      let p' : Process :=
        { p with
          command := .query
          query := query
          queryPid := ctx.pid
          hasKill := true
          progress := some ref }
      .ok ({ pl with
          procs := aset ctx.sessId p' pl.procs,
          byQueryPid := aset ctx.pid ctx.sessId pl.byQueryPid,
          tstore := pl.tstore ++ [[]] }, ctx)

/-- `ProcessList.EndQuery`: always unregisters the pid; when the
connection's process is running exactly that pid, put it back to sleep
(calling and clearing its kill callback, dropping its progress map). -/
def endQuery (pl : ProcessList) (ctx : Ctx) : ProcessList :=
  let pl1 := { pl with byQueryPid := adel ctx.pid pl.byQueryPid }
  match alookup ctx.sessId pl1.procs with
  | none => pl1
  | some p =>
    if p.queryPid = ctx.pid then
      { pl1 with procs := (aset ctx.sessId
          { p with command := .sleep, query := "", hasKill := false,
                   queryPid := 0, progress := none } pl1.procs) }
    else pl1

/-- `ProcessList.Processes`: one `sql.Process` struct copy per entry of
`procs`.  NOTE (faithful to the source): the loop that builds a copy of the
progress map never assigns it back to the copied struct — the returned
`Process` keeps the *original* `Progress` map reference. -/
def processes (pl : ProcessList) : List Process :=
  pl.procs.map (·.2)

/-- `ProcessList.UpdateTableProgress`.  The `none` branches after a
successful pid lookup are unreachable in states produced by the API (a live
pid always has an allocated progress map); in Go, writing to a nil map
would panic there. -/
def updateTableProgress (pl : ProcessList) (pid : Nat) (name : String)
    (delta : Int) : ProcessList :=
  match alookup pid pl.byQueryPid with
  | none => pl
  | some id =>
    match alookup id pl.procs with
    | none => pl
    | some p =>
      match p.progress with
      | none => pl
      | some ref =>
        match pl.tstore.get? ref with
        | none => pl
        | some tm =>
          match alookup name tm with
          | some pg =>
            let pg' := { pg with done := pg.done + delta }
            { pl with tstore := pl.tstore.set ref (aset name pg' tm) }
          | none =>
            -- sql.NewTableProgress(name, -1) allocates a fresh partition map
            let pg' : TableProgress :=
              ⟨name, 0 + delta, -1, pl.pstore.length⟩
            { pl with pstore := pl.pstore ++ [[]],
                      tstore := pl.tstore.set ref (aset name pg' tm) }

/-- `ProcessList.UpdatePartitionProgress`: writes go to the *shared*
partition map object referenced by the table's progress entry. -/
def updatePartitionProgress (pl : ProcessList) (pid : Nat)
    (tableName partitionName : String) (delta : Int) : ProcessList :=
  match alookup pid pl.byQueryPid with
  | none => pl
  | some id =>
    match alookup id pl.procs with
    | none => pl
    | some p =>
      match p.progress with
      | none => pl
      | some ref =>
        match pl.tstore.get? ref with
        | none => pl
        | some tm =>
          match alookup tableName tm with
          | none => pl
          | some tp =>
            match pl.pstore.get? tp.partitionsRef with
            | none => pl
            | some pm =>
              let pp := (alookup partitionName pm).getD
                ⟨partitionName, 0, -1⟩
              let pp' := { pp with done := pp.done + delta }
              { pl with pstore := (pl.pstore.set tp.partitionsRef
                  (aset partitionName pp' pm)) }

/-- `ProcessList.AddTableProgress`. -/
def addTableProgress (pl : ProcessList) (pid : Nat) (name : String)
    (total : Int) : ProcessList :=
  match alookup pid pl.byQueryPid with
  | none => pl
  | some id =>
    match alookup id pl.procs with
    | none => pl
    | some p =>
      match p.progress with
      | none => pl
      | some ref =>
        match pl.tstore.get? ref with
        | none => pl
        | some tm =>
          match alookup name tm with
          | some pg =>
            let pg' := { pg with total := total }
            { pl with tstore := pl.tstore.set ref (aset name pg' tm) }
          | none =>
            let pg' : TableProgress := ⟨name, 0, total, pl.pstore.length⟩
            { pl with pstore := pl.pstore ++ [[]],
                      tstore := pl.tstore.set ref (aset name pg' tm) }

/-- `ProcessList.AddPartitionProgress`. -/
def addPartitionProgress (pl : ProcessList) (pid : Nat)
    (tableName partitionName : String) (total : Int) : ProcessList :=
  match alookup pid pl.byQueryPid with
  | none => pl
  | some id =>
    match alookup id pl.procs with
    | none => pl
    | some p =>
      match p.progress with
      | none => pl
      | some ref =>
        match pl.tstore.get? ref with
        | none => pl
        | some tm =>
          match alookup tableName tm with
          | none => pl
          | some tp =>
            match pl.pstore.get? tp.partitionsRef with
            | none => pl
            | some pm =>
              match alookup partitionName pm with
              | some pg =>
                let pg' := { pg with total := total }
                { pl with pstore := (pl.pstore.set tp.partitionsRef
                    (aset partitionName pg' pm)) }
              | none =>
                { pl with pstore := (pl.pstore.set tp.partitionsRef
                    (aset partitionName ⟨partitionName, 0, total⟩ pm)) }

/-- `ProcessList.RemoveTableProgress`. -/
def removeTableProgress (pl : ProcessList) (pid : Nat) (name : String) :
    ProcessList :=
  match alookup pid pl.byQueryPid with
  | none => pl
  | some id =>
    match alookup id pl.procs with
    | none => pl
    | some p =>
      match p.progress with
      | none => pl
      | some ref =>
        match pl.tstore.get? ref with
        | none => pl
        | some tm =>
          { pl with tstore := pl.tstore.set ref (adel name tm) }

/-- `ProcessList.RemovePartitionProgress`. -/
def removePartitionProgress (pl : ProcessList) (pid : Nat)
    (tableName partitionName : String) : ProcessList :=
  match alookup pid pl.byQueryPid with
  | none => pl
  | some id =>
    match alookup id pl.procs with
    | none => pl
    | some p =>
      match p.progress with
      | none => pl
      | some ref =>
        match pl.tstore.get? ref with
        | none => pl
        | some tm =>
          match alookup tableName tm with
          | none => pl
          | some tp =>
            match pl.pstore.get? tp.partitionsRef with
            | none => pl
            | some pm =>
              { pl with pstore := (pl.pstore.set tp.partitionsRef
                  (adel partitionName pm)) }

/-! ### Observing a snapshot through the current heap

A `Process` value obtained from `Processes` holds map references; what a
caller *sees* in it later is obtained by dereferencing those references in
the then-current stores. -/

/-- A fully-dereferenced table-progress entry. -/
def viewTableProgress (pl : ProcessList) (tp : TableProgress) :
    String × Int × Int × PMap :=
  (tp.name, tp.done, tp.total, (pl.pstore.get? tp.partitionsRef).getD [])

/-- A fully-dereferenced progress map. -/
def viewProgress (pl : ProcessList) (ref? : Option Nat) :
    Option (List (String × (String × Int × Int × PMap))) :=
  ref?.map (fun r =>
    ((pl.tstore.get? r).getD []).map (fun e => (e.1, viewTableProgress pl e.2)))

/-- Everything a caller can observe of a returned `Process` value under
heap `pl`. -/
def viewProcess (pl : ProcessList) (p : Process) :
    Nat × ProcessCommand × String × String × String × Nat × Bool ×
      Option (List (String × (String × Int × Int × PMap))) :=
  (p.connection, p.command, p.host, p.user, p.query, p.queryPid, p.hasKill,
   viewProgress pl p.progress)

/-! ## Derived notions used to state the aggregation claims -/

/-- First-appearance deduplication of a key sequence, extending `acc`. -/
def firstAppearAux (acc : List Nat) : List Nat → List Nat
  | [] => acc
  | k :: rest =>
    if k ∈ acc then firstAppearAux acc rest
    else firstAppearAux (acc ++ [k]) rest

/-- The distinct keys of a sequence in first-appearance order. -/
def firstAppear (l : List Nat) : List Nat := firstAppearAux [] l

/-- The grouping keys of the rows whose key evaluation succeeds, in input
order. -/
def rowKeys (gb : List Expr) (rows : List Row) : List Nat :=
  rows.filterMap (fun r => (groupingKey gb r).toOption)

/-- Fold `updateBuffers` over a list of rows. -/
def accumRows (sel : List Expr) : Buffers → List Row → Except String Buffers
  | b, [] => .ok b
  | b, r :: rest =>
    match updateBuffers b sel r with
    | .error e => .error e
    | .ok b2 => accumRows sel b2 rest

/-- The row the grouping iterator emits for cache entry `k` (defaults are
never reached when the entry exists: buffer evaluation cannot fail). -/
def groupRow (sel : List Expr) (c : Cache) (k : Nat) : Row :=
  match cacheGet k c with
  | none => []
  | some b =>
    match evalBuffers b sel with
    | .error _ => []
    | .ok r => r

/-! ## Concrete inputs used by witnesses -/

/-- Scenario S1: table `t(a int, b int)` rows `(1,10),(1,20),(2,30)`. -/
def s1rows : List Row :=
  [[.vInt 1, .vInt 10], [.vInt 1, .vInt 20], [.vInt 2, .vInt 30]]

/-- `SELECT a, SUM(b) ...`. -/
def s1sel : List Expr :=
  [.getField 0 .tInt64 "a" false, .sumAgg (.getField 1 .tInt64 "b" false)]

/-- `... GROUP BY a`. -/
def s1gb : List Expr := [.getField 0 .tInt64 "a" false]

/-- State with one connection running query pid 7 that has a table-progress
entry `t` with total 10 and done 0. -/
def c7base : ProcessList :=
  match beginQuery (addConnection newProcessList 1 "a") ⟨1, 7⟩ "q" with
  | .ok (pl, _) => addTableProgress pl 7 "t" 10
  | .error _ => newProcessList

/-! # Theorems -/

/-! ## Association-list map lemmas -/

theorem alookup_aset_same {α β : Type} [DecidableEq α] (k : α) (v : β)
    (l : List (α × β)) : alookup k (aset k v l) = some v := by
  induction l with
  | nil => simp [aset, alookup]
  | cons hd tl ih =>
    by_cases h : hd.1 = k
    · simp [aset, alookup, h]
    · cases hd
      simp_all [aset, alookup, h]

theorem mem_aset_self {α β : Type} [DecidableEq α] (k : α) (v : β)
    (l : List (α × β)) : (k, v) ∈ aset k v l := by
  induction l with
  | nil => simp [aset]
  | cons hd tl ih =>
    cases hd with
    | mk k' v' =>
      by_cases h : k' = k
      · simp [aset, h]
      · simp only [aset, if_neg h]
        exact List.mem_cons_of_mem _ ih

theorem alookup_mem {α β : Type} [DecidableEq α] {k : α} {v : β}
    {l : List (α × β)} (h : alookup k l = some v) : (k, v) ∈ l := by
  induction l with
  | nil => simp [alookup] at h
  | cons hd tl ih =>
    cases hd with
    | mk k' v' =>
      by_cases hk : k' = k
      · subst hk
        simp [alookup] at h
        subst h
        exact List.mem_cons_self _ _
      · simp only [alookup, if_neg hk] at h
        exact List.mem_cons_of_mem _ (ih h)

/-! ## C8: with-children / with-expressions round trips -/

/-- C8: for GroupBy, ChangeReplicationSource, StartReplica and StopReplica,
`WithChildren` applied to the node's own children reproduces the node, and
it returns the invalid-children-number error exactly when the argument
count differs from the child count; GroupBy's `WithExpressions` applied to
its own expression list (selected then group-by) likewise reproduces the
node, erring exactly on a count mismatch. -/
theorem C8_withChildren_roundtrip :
    (∀ p : GroupBy, p.withChildren p.children = .ok p) ∧
    (∀ (p : GroupBy) (cs : List Node),
      p.withChildren cs =
          .error (.invalidChildrenNumber "*plan.GroupBy" cs.length 1) ↔
        cs.length ≠ 1) ∧
    (∀ p : GroupBy, p.withExpressions p.expressions = .ok p) ∧
    (∀ (p : GroupBy) (es : List Expr),
      p.withExpressions es =
          .error (.invalidChildrenNumber "*plan.GroupBy" es.length
            (p.selectedExprs.length + p.groupByExprs.length)) ↔
        es.length ≠ p.selectedExprs.length + p.groupByExprs.length) ∧
    (∀ c : ChangeReplicationSource, c.withChildren c.children = .ok c) ∧
    (∀ (c : ChangeReplicationSource) (cs : List Node),
      c.withChildren cs =
          .error (.invalidChildrenNumber "*plan.ChangeReplicationSource"
            cs.length 0) ↔
        cs.length ≠ 0) ∧
    (∀ s : StartReplica, s.withChildren s.children = .ok s) ∧
    (∀ (s : StartReplica) (cs : List Node),
      s.withChildren cs =
          .error (.invalidChildrenNumber "*plan.StartReplica" cs.length 0) ↔
        cs.length ≠ 0) ∧
    (∀ s : StopReplica, s.withChildren s.children = .ok s) ∧
    (∀ (s : StopReplica) (cs : List Node),
      s.withChildren cs =
          .error (.invalidChildrenNumber "*plan.StopReplica" cs.length 0) ↔
        cs.length ≠ 0) := by
  refine ⟨?_, ?_, ?_, ?_, ?_, ?_, ?_, ?_, ?_, ?_⟩
  · intro p; cases p; rfl
  · intro p cs
    rcases cs with _ | ⟨c, _ | ⟨d, t⟩⟩ <;>
      simp [GroupBy.withChildren]
  · intro p
    cases p with
    | mk sel gb child =>
      simp [GroupBy.withExpressions, GroupBy.expressions,
        List.take_left, List.drop_left]
  · intro p es
    by_cases h : es.length = p.selectedExprs.length + p.groupByExprs.length <;>
      simp [GroupBy.withExpressions, h]
  · intro c; rfl
  · intro c cs
    rcases cs with _ | ⟨d, t⟩ <;> simp [ChangeReplicationSource.withChildren]
  · intro s; rfl
  · intro s cs
    rcases cs with _ | ⟨d, t⟩ <;> simp [StartReplica.withChildren]
  · intro s; rfl
  · intro s cs
    rcases cs with _ | ⟨d, t⟩ <;> simp [StopReplica.withChildren]

/-! ## C9: replication stubs -/

/-- C9: the three replication statement nodes are always resolved, and
executing any of them returns no iterator together with the
replication-not-supported error, for every context and input row. -/
theorem C9_replication_stubs :
    ∀ (c : ChangeReplicationSource) (s1 : StartReplica) (s2 : StopReplica)
      (ctx : Ctx) (row : Row),
      c.resolved = true ∧
      c.rowIter ctx row = (none, some replicationErrMsg) ∧
      s1.resolved = true ∧
      s1.rowIter ctx row = (none, some replicationErrMsg) ∧
      s2.resolved = true ∧
      s2.rowIter ctx row = (none, some replicationErrMsg) := by
  intro c s1 s2 ctx row
  exact ⟨rfl, rfl, rfl, rfl, rfl, rfl⟩

/-! ## C10: progress operations with an unbound pid are no-ops -/

/-- C10: every progress operation invoked with a pid that is not registered
in `byQueryPid` returns without error and leaves the process list (and both
stores) unchanged. -/
theorem C10_unbound_pid_noop :
    ∀ (pl : ProcessList) (pid : Nat) (t p : String) (n : Int),
      alookup pid pl.byQueryPid = none →
      updateTableProgress pl pid t n = pl ∧
      updatePartitionProgress pl pid t p n = pl ∧
      addTableProgress pl pid t n = pl ∧
      addPartitionProgress pl pid t p n = pl ∧
      removeTableProgress pl pid t = pl ∧
      removePartitionProgress pl pid t p = pl := by
  intro pl pid t p n h
  refine ⟨?_, ?_, ?_, ?_, ?_, ?_⟩ <;>
    simp only [updateTableProgress, updatePartitionProgress,
      addTableProgress, addPartitionProgress, removeTableProgress,
      removePartitionProgress, h]

/-- Witness for C10 at a concrete process list and pid. -/
theorem C10_unbound_pid_noop_witness :
    updateTableProgress (addConnection newProcessList 1 "h") 5 "t" 1 =
      addConnection newProcessList 1 "h" :=
  (C10_unbound_pid_noop (addConnection newProcessList 1 "h") 5 "t" "p" 1
    (by decide)).1

/-! ## C6: `Processes` size and EndQuery → sleep -/

/-- C6 as stated is false: `Processes` returns one entry per registered
connection regardless of its command.  A freshly readied (sleeping)
connection is a counterexample: `Processes` has one entry but no connection
has a non-sleep command. -/
theorem C6_counterexample :
    (processes (connectionReady newProcessList ⟨1, "a", "u"⟩)).length = 1 ∧
    ((processes (connectionReady newProcessList ⟨1, "a", "u"⟩)).filter
      (fun p => p.command ≠ ProcessCommand.sleep)).length = 0 := by
  constructor <;> rfl

/-- C6 amended: `Processes` returns exactly one entry per registered
connection (whatever its command); and after a successful `BeginQuery`, an
`EndQuery` with the returned context puts the connection's command back to
sleep, which `Processes` then reports. -/
theorem C6_amended :
    (∀ pl : ProcessList, (processes pl).length = pl.procs.length) ∧
    (∀ (pl : ProcessList) (ctx : Ctx) (q : String) (pl' : ProcessList)
       (ctx' : Ctx), beginQuery pl ctx q = .ok (pl', ctx') →
       (alookup ctx'.sessId (endQuery pl' ctx').procs).map (·.command) =
           some .sleep ∧
       ∃ p, (ctx'.sessId, p) ∈ (endQuery pl' ctx').procs ∧
         p ∈ processes (endQuery pl' ctx') ∧ p.command = .sleep) := by
  constructor
  · intro pl
    exact List.length_map _ _
  · intro pl ctx q pl' ctx' hb
    rcases h1 : alookup ctx.sessId pl.procs with _ | p
    · rw [beginQuery, h1] at hb
      exact absurd hb (by simp)
    rcases h2 : alookup ctx.pid pl.byQueryPid with _ | c
    swap
    · rw [beginQuery, h1, h2] at hb
      exact absurd hb (by simp)
    rw [beginQuery, h1, h2] at hb
    simp only [Except.ok.injEq, Prod.mk.injEq] at hb
    obtain ⟨hpl, hctx⟩ := hb
    subst hctx
    subst hpl
    have hlook := alookup_aset_same ctx.sessId
      ({ p with
          command := ProcessCommand.query
          query := q
          queryPid := ctx.pid
          hasKill := true
          progress := some pl.tstore.length }) pl.procs
    have hfin :
        alookup ctx.sessId
          (endQuery
            { pl with
              procs := (aset ctx.sessId
                { p with
                  command := ProcessCommand.query
                  query := q
                  queryPid := ctx.pid
                  hasKill := true
                  progress := some pl.tstore.length } pl.procs)
              byQueryPid := aset ctx.pid ctx.sessId pl.byQueryPid
              tstore := pl.tstore ++ [[]] } ctx).procs =
          some { p with
            command := ProcessCommand.sleep
            query := ""
            queryPid := 0
            hasKill := false
            progress := none } := by
      simp only [endQuery, hlook, if_true]
      exact alookup_aset_same _ _ _
    refine ⟨?_, ?_⟩
    · rw [hfin]
      rfl
    · refine ⟨_, alookup_mem hfin, ?_, rfl⟩
      exact List.mem_map_of_mem (·.2) (alookup_mem hfin)

/-- Witness for C6's amended theorem: one connection, begin pid 7, end it;
the process list reports it asleep. -/
theorem C6_amended_witness :
    (alookup 1 (endQuery
      ⟨[(1, ⟨1, .query, "a", "unauthenticated user", "q", 7, true, some 0⟩)],
        [(7, 1)], [[]], []⟩ ⟨1, 7⟩).procs).map (·.command) = some .sleep :=
  ((C6_amended.2 (addConnection newProcessList 1 "a") ⟨1, 7⟩ "q"
    ⟨[(1, ⟨1, .query, "a", "unauthenticated user", "q", 7, true, some 0⟩)],
      [(7, 1)], [[]], []⟩ ⟨1, 7⟩ (by rfl))).1

/-! ## C7: `Processes` does not snapshot the progress map -/

/-- C7 fails on the code: `Processes` copies each `sql.Process` struct and
builds a copy of its progress map, but never assigns the copy back, so the
returned value keeps the original (live) progress map reference.  Viewing
the snapshot taken *before* `UpdateTableProgress(7, "t", 1)` through the
heap as it stands *after* the call shows `Done` changed from 0 to 1. -/
theorem C7_bug_eval :
    (processes c7base).map (fun p => viewProgress c7base p.progress) =
      [some [("t", ("t", 0, 10, ([] : PMap)))]] ∧
    (processes c7base).map
        (fun p => viewProgress (updateTableProgress c7base 7 "t" 1)
          p.progress) =
      [some [("t", ("t", 1, 10, ([] : PMap)))]] := by
  constructor <;> rfl

/-! ## C4: behaviour after a terminal `Next` -/

/-- C4 as stated is false for the error half: `groupByIter.Next` sets
`done` before draining its child, so after an error the next call returns
`io.EOF`, not the error again. -/
theorem C4_counterexample :
    (newGroupByIter [Expr.countAgg] ⟨[], some "boom"⟩).next.1 =
        NextOut.err "boom" ∧
    ((newGroupByIter [Expr.countAgg] ⟨[], some "boom"⟩).next.2).next.1 =
        NextOut.eof ∧
    NextOut.eof ≠ NextOut.err "boom" := by
  refine ⟨rfl, rfl, by decide⟩

theorem gbIterNext_eof_stable {it it' : GBIter}
    (h : it.next = (.eof, it')) : it'.next = (.eof, it') := by
  by_cases hd : it.done
  · rw [GBIter.next, if_pos hd] at h
    obtain ⟨h1, h2⟩ := Prod.mk.injEq .. ▸ h
    subst h2
    rw [GBIter.next, if_pos hd]
  · simp only [GBIter.next, if_neg hd] at h
    split at h
    · simp at h
    · split at h
      · simp at h
      · split at h <;> simp at h

theorem GGIter.emit_eof {it it' : GGIter} (h : it.emit = (.eof, it')) :
    it' = it ∧ it.keys.get? it.pos = none := by
  rcases hk : it.keys.get? it.pos with _ | k
  · simp only [GGIter.emit, hk, Prod.mk.injEq, true_and] at h
    exact ⟨h.symm, rfl⟩
  · simp only [GGIter.emit, hk] at h
    rcases hc : cacheGet k (it.aggregations.getD []) with _ | buffers
    · rw [hc] at h
      simp at h
    · rw [hc] at h
      rcases he : evalBuffers buffers it.selectedExprs with e | row <;>
        simp only [he] at h <;> simp at h

theorem ggIterNext_eof_stable {it it' : GGIter}
    (h : it.next = (.eof, it')) : it'.next = (.eof, it') := by
  rcases ha : it.aggregations with _ | c
  · simp only [GGIter.next, ha] at h
    rcases hs : (computeGo it.selectedExprs it.groupByExprs
        it.child.pending it.child.final [] []).stopped with _ | e
    · rw [hs] at h
      obtain ⟨hit, hk⟩ := GGIter.emit_eof h
      subst hit
      simp only [GGIter.next]
      simp only [GGIter.emit, hk]
    · rw [hs] at h
      simp at h
  · simp only [GGIter.next, ha] at h
    obtain ⟨hit, hk⟩ := GGIter.emit_eof h
    subst hit
    simp only [GGIter.next, ha]
    simp only [GGIter.emit, hk]

/-- C4 amended: for both group-by iterators, once `Next` has returned end,
every further call returns end (and the same iterator state); after an
*error*, however, the next call need not repeat it (the plain iterator
returns end — see the counterexample). -/
theorem C4_amended :
    (∀ (it it' : GBIter), it.next = (.eof, it') → it'.next = (.eof, it')) ∧
    (∀ (it it' : GGIter), it.next = (.eof, it') → it'.next = (.eof, it')) :=
  ⟨fun _ _ h => gbIterNext_eof_stable h,
   fun _ _ h => ggIterNext_eof_stable h⟩

/-! ## C2: empty child input -/

theorem evalBuffer_isOk (e : Expr) (buffer : Row) :
    ∃ v, evalBuffer e buffer = .ok v := by
  induction e generalizing buffer <;>
    first
      | exact ⟨_, rfl⟩
      | (rename_i ih; exact ih buffer)

theorem evalBuffers_isOk (aggregates : List Expr) (buffers : Buffers) :
    ∃ r, evalBuffers buffers aggregates = .ok r := by
  induction aggregates generalizing buffers with
  | nil => exact ⟨[], rfl⟩
  | cons a rest ih =>
    obtain ⟨v, hv⟩ := evalBuffer_isOk a (buffers.getD 0 [])
    obtain ⟨vs, hvs⟩ := ih (buffers.drop 1)
    refine ⟨v :: vs, ?_⟩
    rw [evalBuffers, hv, hvs]
    rfl

/-- C2: over an empty child input, a GroupBy with no group-by expressions
yields exactly one row — each selected expression evaluated over its
freshly-initialised aggregation buffer — while a GroupBy with group-by
expressions yields zero rows (its first `Next` returns end). -/
theorem C2_empty_input (p : GroupBy) :
    (p.groupByExprs = [] →
      p.rowIterFor ⟨[], none⟩ =
          .inl (newGroupByIter p.selectedExprs ⟨[], none⟩) ∧
      ∃ r st,
        evalBuffers (p.selectedExprs.map fillBuffer) p.selectedExprs =
            .ok r ∧
        (newGroupByIter p.selectedExprs ⟨[], none⟩).next = (.row r, st) ∧
        st.next = (.eof, st)) ∧
    (p.groupByExprs ≠ [] →
      p.rowIterFor ⟨[], none⟩ =
          .inr (newGroupByGroupingIter p.selectedExprs p.groupByExprs
            ⟨[], none⟩) ∧
      (newGroupByGroupingIter p.selectedExprs p.groupByExprs
        ⟨[], none⟩).next.1 = .eof) := by
  constructor
  · intro hgb
    constructor
    · simp [GroupBy.rowIterFor, hgb]
    · obtain ⟨r, hr⟩ :=
        evalBuffers_isOk p.selectedExprs (p.selectedExprs.map fillBuffer)
      refine ⟨r, ⟨p.selectedExprs, ⟨[], none⟩,
          p.selectedExprs.map fillBuffer, true⟩, hr, ?_, ?_⟩
      · simp only [GBIter.next, newGroupByIter, if_neg Bool.false_ne_true,
          gbLoop, hr]
      · rfl
  · intro hgb
    constructor
    · have : p.groupByExprs.isEmpty = false := by
        cases hg : p.groupByExprs with
        | nil => exact absurd hg hgb
        | cons a t => rfl
      simp [GroupBy.rowIterFor, this]
    · rfl

/-- Witness for C2 at a concrete GroupBy: `SELECT COUNT(*)` over an empty
table yields the single row `[0]`; `SELECT COUNT(*) ... GROUP BY a` over an
empty table yields no row. -/
theorem C2_empty_input_witness :
    (GroupBy.rowIterFor ⟨[Expr.countAgg], [], .tableNode "t"⟩ ⟨[], none⟩ =
        .inl (newGroupByIter [Expr.countAgg] ⟨[], none⟩)) ∧
    (newGroupByGroupingIter [Expr.countAgg]
        [Expr.getField 0 .tInt64 "a" false] ⟨[], none⟩).next.1 =
      NextOut.eof := by
  constructor
  · exact ((C2_empty_input ⟨[Expr.countAgg], [], .tableNode "t"⟩).1 rfl).1
  · exact ((C2_empty_input
      ⟨[Expr.countAgg], [Expr.getField 0 .tInt64 "a" false],
        .tableNode "t"⟩).2 (by decide)).2

/-! ## C3: the generator-lifting rule -/

theorem findGenLoop_skip (pre rest : List Expr) (i : Nat)
    (acc : Option (Nat × Expr)) (hpre : ∀ e ∈ pre, genSite? e = none) :
    findGenLoop (pre ++ rest) i acc = findGenLoop rest (i + pre.length) acc := by
  induction pre generalizing i with
  | nil => rfl
  | cons hd tl ih =>
    have hhd : genSite? hd = none := hpre hd (List.mem_cons_self _ _)
    have harith : i + 1 + tl.length = i + (tl.length + 1) := by omega
    rw [List.cons_append, findGenLoop, hhd,
      ih (i + 1) (fun e he => hpre e (List.mem_cons_of_mem _ he)),
      List.length_cons, harith]

theorem findGenLoop_acc_noSite (rest : List Expr) (i : Nat)
    (acc : Nat × Expr) (hrest : ∀ e ∈ rest, genSite? e = none) :
    findGenLoop rest i (some acc) = .ok (some acc) := by
  induction rest generalizing i with
  | nil => rfl
  | cons hd tl ih =>
    have hhd : genSite? hd = none := hrest hd (List.mem_cons_self _ _)
    rw [findGenLoop, hhd]
    exact ih (i + 1) (fun e he => hrest e (List.mem_cons_of_mem _ he))

theorem list_set_append_cons {α : Type} (pre : List α) (g v : α)
    (post : List α) : (pre ++ g :: post).set pre.length v = pre ++ v :: post := by
  induction pre with
  | nil => rfl
  | cons hd tl ih => simp [List.set, ih]

/-- C3 as stated is false in its error-precedence half: a projection with
*two* EXPLODEs of non-array type fails with the explode-not-array error (the
type of the first site is checked before the second site is seen), not with
the multiple-generators error that (iii) promises for every projection
containing more than one EXPLODE. -/
theorem C3_counterexample :
    resolveGenerators
        (.project [.explode (.getField 0 .tInt64 "a" false),
                   .explode (.getField 0 .tInt64 "a" false)]
          (.tableNode "t")) =
      .error (.explodeNotArray .tInt64) ∧
    resolveGenerators
        (.project [.explode (.getField 0 .tInt64 "a" false),
                   .explode (.getField 0 .tInt64 "a" false)]
          (.tableNode "t")) ≠
      .error .multipleGenerators := by
  refine ⟨rfl, fun h => ?_⟩
  exact absurd (Except.error.inj h) (by decide)

/-- C3 amended: for a Project whose child the rule leaves unchanged,
(i) no EXPLODE site → the node is unchanged; (ii) exactly one site, of
array type → the node becomes a Generate wrapping the Project, the lifted
expression substituted at its original index and referenced by a field at
that index; (iii) more than one site, the *first* site being of array type
→ the multiple-generators error; (iv) the first site not of array type →
the explode-not-array error. -/
theorem C3_amended (child : Node)
    (hchild : resolveGenerators child = .ok child) :
    (∀ ps : List Expr, (∀ e ∈ ps, genSite? e = none) →
      resolveGenerators (.project ps child) = .ok (.project ps child)) ∧
    (∀ (pre post : List Expr) (g lifted : Expr),
      (∀ e ∈ pre, genSite? e = none) → (∀ e ∈ post, genSite? e = none) →
      genSite? g = some lifted → isArrayType (exprType lifted) = true →
      resolveGenerators (.project (pre ++ g :: post) child) =
        .ok (.generate (.project (pre ++ lifted :: post) child)
          (.getField pre.length (exprType lifted) (exprNameOf lifted)
            (exprNullable lifted)))) ∧
    (∀ (pre mid post : List Expr) (g1 g2 lifted1 lifted2 : Expr),
      (∀ e ∈ pre, genSite? e = none) → (∀ e ∈ mid, genSite? e = none) →
      genSite? g1 = some lifted1 → genSite? g2 = some lifted2 →
      isArrayType (exprType lifted1) = true →
      resolveGenerators (.project (pre ++ g1 :: (mid ++ g2 :: post)) child) =
        .error .multipleGenerators) ∧
    (∀ (pre post : List Expr) (g lifted : Expr),
      (∀ e ∈ pre, genSite? e = none) →
      genSite? g = some lifted → isArrayType (exprType lifted) = false →
      resolveGenerators (.project (pre ++ g :: post) child) =
        .error (.explodeNotArray (exprType lifted))) := by
  have hstep : ∀ ps : List Expr,
      resolveGenerators (.project ps child) =
        resolveGeneratorsStep (.project ps child) := by
    intro ps
    show transformUp resolveGeneratorsStep (.project ps child) = _
    rw [transformUp]
    show (transformUp resolveGeneratorsStep child).bind _ = _
    rw [show transformUp resolveGeneratorsStep child = .ok child from hchild]
    rfl
  refine ⟨?_, ?_, ?_, ?_⟩
  · intro ps hclean
    rw [hstep]
    have hfg : findGenerator ps = .ok none := by
      rw [findGenerator,
        show ps = ps ++ ([] : List Expr) from (List.append_nil ps).symm ▸ rfl]
      rw [findGenLoop_skip ps [] 0 none hclean]
      rfl
    rw [resolveGeneratorsStep, hfg]
  · intro pre post g lifted hpre hpost hg harr
    rw [hstep]
    have hfg : findGenerator (pre ++ g :: post) =
        .ok (some (pre.length, lifted)) := by
      rw [findGenerator, findGenLoop_skip pre (g :: post) 0 none hpre,
        Nat.zero_add]
      simp only [findGenLoop, hg, harr, eq_self_iff_true, if_true]
      exact findGenLoop_acc_noSite post (pre.length + 1) _ hpost
    simp only [resolveGeneratorsStep, hfg]
    rw [list_set_append_cons]
  · intro pre mid post g1 g2 lifted1 lifted2 hpre hmid hg1 hg2 harr
    rw [hstep]
    have hfg : findGenerator (pre ++ g1 :: (mid ++ g2 :: post)) =
        .error .multipleGenerators := by
      rw [findGenerator,
        findGenLoop_skip pre (g1 :: (mid ++ g2 :: post)) 0 none hpre,
        Nat.zero_add]
      simp only [findGenLoop, hg1, harr, eq_self_iff_true, if_true]
      rw [findGenLoop_skip mid (g2 :: post) (pre.length + 1) _ hmid]
      simp only [findGenLoop, hg2]
    simp only [resolveGeneratorsStep, hfg]
  · intro pre post g lifted hpre hg harr
    rw [hstep]
    have hfg : findGenerator (pre ++ g :: post) =
        .error (.explodeNotArray (exprType lifted)) := by
      rw [findGenerator, findGenLoop_skip pre (g :: post) 0 none hpre,
        Nat.zero_add]
      simp only [findGenLoop, hg, harr, Bool.false_eq_true, if_false]
    simp only [resolveGeneratorsStep, hfg]

/-- Witness for C3's amended theorem: `SELECT EXPLODE(arr) FROM t` with an
array-typed column is rewritten into a Generate wrapping the Project with a
synthetic field reference at index 0. -/
theorem C3_amended_witness :
    resolveGenerators
        (.project [.explode (.getField 0 (.tArray .tInt64) "arr" false)]
          (.tableNode "t")) =
      .ok (.generate
        (.project [.genExpr (.getField 0 (.tArray .tInt64) "arr" false)]
          (.tableNode "t"))
        (.getField 0 (.tArray .tInt64)
          (exprNameOf (.genExpr (.getField 0 (.tArray .tInt64) "arr" false)))
          false)) := by
  have h := (C3_amended (.tableNode "t") rfl).2.1 []
    [] (.explode (.getField 0 (.tArray .tInt64) "arr" false))
    (.genExpr (.getField 0 (.tArray .tInt64) "arr" false))
    (by intro e he; cases he) (by intro e he; cases he) rfl rfl
  exact h

/-- Witness for C4's amended theorem: a grouping iterator over an empty
child returns end, and keeps returning end afterwards. -/
theorem C4_amended_witness :
    (newGroupByGroupingIter [Expr.countAgg]
        [Expr.getField 0 .tInt64 "a" false] ⟨[], none⟩).next.2.next =
      (NextOut.eof,
       (newGroupByGroupingIter [Expr.countAgg]
        [Expr.getField 0 .tInt64 "a" false] ⟨[], none⟩).next.2) :=
  C4_amended.2
    (newGroupByGroupingIter [Expr.countAgg]
      [Expr.getField 0 .tInt64 "a" false] ⟨[], none⟩)
    ((newGroupByGroupingIter [Expr.countAgg]
      [Expr.getField 0 .tInt64 "a" false] ⟨[], none⟩).next.2)
    (by rfl)


/-! ## C1/C5: analysis of `groupByGroupingIter.compute` -/

theorem cacheGet_put_same (k : Nat) (v : Buffers) (c : Cache) :
    cacheGet k (cachePut k v c) = some v := by
  induction c with
  | nil => simp [cachePut, cacheGet]
  | cons hd tl ih =>
    by_cases h : hd.1 = k
    · cases hd
      simp_all [cachePut, cacheGet]
    · cases hd
      simp_all [cachePut, cacheGet]

theorem cacheGet_put_other {j k : Nat} (h : j ≠ k) (v : Buffers) (c : Cache) :
    cacheGet j (cachePut k v c) = cacheGet j c := by
  induction c with
  | nil =>
    have hne : ¬(k = j) := fun he => h he.symm
    simp [cachePut, cacheGet, hne]
  | cons hd tl ih =>
    cases hd with
    | mk k' v' =>
      by_cases hk : k' = k
      · subst hk
        have hne : ¬(k' = j) := fun he => h he.symm
        simp [cachePut, cacheGet, hne]
      · simp only [cachePut, if_neg hk, cacheGet]
        by_cases hj : k' = j
        · simp [hj]
        · simp [hj, ih]

theorem rowKeys_cons_ok {gb : List Expr} {r : Row} {k : Nat}
    (hk : groupingKey gb r = .ok k) (rest : List Row) :
    rowKeys gb (r :: rest) = k :: rowKeys gb rest := by
  simp [rowKeys, List.filterMap_cons, hk, Except.toOption]

/-- Does one full error-free run of `compute` starting from cache `c` and
key list `ks`; the final key list extends `ks` by the unseen keys in
first-appearance order, and the final cache's domain is the final key
list. -/
theorem computeGo_ok_keys (sel gb : List Expr) :
    ∀ (rows : List Row) (c : Cache) (ks : List Nat) (C : Cache)
      (KS : List Nat),
      (∀ k, (cacheGet k c).isSome ↔ k ∈ ks) →
      computeGo sel gb rows none c ks = ⟨C, KS, [], none⟩ →
      KS = firstAppearAux ks (rowKeys gb rows) ∧
      (∀ k, (cacheGet k C).isSome ↔ k ∈ KS) := by
  intro rows
  induction rows with
  | nil =>
    intro c ks C KS hinv hrun
    rw [computeGo] at hrun
    obtain ⟨h1, h2, h3, h4⟩ := ComputeRes.mk.injEq .. ▸ hrun
    subst h1
    subst h2
    exact ⟨by simp [rowKeys, firstAppearAux], hinv⟩
  | cons r rest ih =>
    intro c ks C KS hinv hrun
    rw [computeGo] at hrun
    rcases hk : groupingKey gb r with e | k
    · rw [hk] at hrun
      simp at hrun
    · rw [hk] at hrun
      rcases hc : cacheGet k c with _ | b0
      · -- first appearance of k
        have hnotin : k ∉ ks := by
          intro hmem
          have := (hinv k).mpr hmem
          rw [hc] at this
          simp at this
        simp only [hc, cacheGet_put_same] at hrun
        rcases hu : updateBuffers (sel.map fillBuffer) sel r with e | b2
        · rw [hu] at hrun
          simp at hrun
        · rw [hu] at hrun
          have hinv2 : ∀ j,
              (cacheGet j (cachePut k b2
                (cachePut k (sel.map fillBuffer) c))).isSome ↔
                j ∈ ks ++ [k] := by
            intro j
            by_cases hj : j = k
            · subst hj
              simp [cacheGet_put_same]
            · rw [cacheGet_put_other hj, cacheGet_put_other hj]
              simp [hinv j, hj]
          obtain ⟨h1, h2⟩ := ih _ _ _ _ hinv2 hrun
          refine ⟨?_, h2⟩
          rw [rowKeys_cons_ok hk, firstAppearAux, if_neg hnotin]
          exact h1
      · -- k already present
        have hin : k ∈ ks := (hinv k).mp (by rw [hc]; rfl)
        simp only [hc] at hrun
        rcases hu : updateBuffers b0 sel r with e | b2
        · rw [hu] at hrun
          simp at hrun
        · rw [hu] at hrun
          have hinv2 : ∀ j,
              (cacheGet j (cachePut k b2 c)).isSome ↔ j ∈ ks := by
            intro j
            by_cases hj : j = k
            · subst hj
              simp [cacheGet_put_same, hin]
            · rw [cacheGet_put_other hj]
              exact hinv j
          obtain ⟨h1, h2⟩ := ih _ _ _ _ hinv2 hrun
          refine ⟨?_, h2⟩
          rw [rowKeys_cons_ok hk, firstAppearAux, if_pos hin]
          exact h1


theorem firstAppearAux_mem (l : List Nat) :
    ∀ (acc : List Nat) (k : Nat),
      k ∈ firstAppearAux acc l ↔ k ∈ acc ∨ k ∈ l := by
  induction l with
  | nil => intro acc k; simp [firstAppearAux]
  | cons hd tl ih =>
    intro acc k
    rw [firstAppearAux]
    by_cases hmem : hd ∈ acc
    · rw [if_pos hmem, ih]
      constructor
      · rintro (h | h)
        · exact Or.inl h
        · exact Or.inr (List.mem_cons_of_mem _ h)
      · rintro (h | h)
        · exact Or.inl h
        · rcases List.mem_cons.mp h with h | h
          · exact Or.inl (h ▸ hmem)
          · exact Or.inr h
    · rw [if_neg hmem, ih]
      simp [List.mem_append, List.mem_cons, or_assoc]
  
theorem firstAppearAux_nodup (l : List Nat) :
    ∀ acc : List Nat, acc.Nodup → (firstAppearAux acc l).Nodup := by
  induction l with
  | nil => intro acc h; exact h
  | cons hd tl ih =>
    intro acc h
    rw [firstAppearAux]
    by_cases hmem : hd ∈ acc
    · rw [if_pos hmem]
      exact ih acc h
    · rw [if_neg hmem]
      refine ih (acc ++ [hd]) ?_
      rw [List.nodup_append]
      exact ⟨h, List.nodup_singleton _,
        fun a ha hb => hmem ((List.mem_singleton.mp hb) ▸ ha)⟩

theorem firstAppearAux_length (l : List Nat) :
    ∀ acc : List Nat,
      (firstAppearAux acc l).length ≤ acc.length + l.length := by
  induction l with
  | nil => intro acc; simp [firstAppearAux]
  | cons hd tl ih =>
    intro acc
    rw [firstAppearAux]
    by_cases hmem : hd ∈ acc
    · rw [if_pos hmem]
      calc (firstAppearAux acc tl).length ≤ acc.length + tl.length := ih acc
        _ ≤ acc.length + (hd :: tl).length := by simp
    · rw [if_neg hmem]
      calc (firstAppearAux (acc ++ [hd]) tl).length
          ≤ (acc ++ [hd]).length + tl.length := ih _
        _ = acc.length + (hd :: tl).length := by simp; omega

/-- Emission phase of the grouping iterator: once the cache is computed,
draining yields one row per remaining key, in key-list order, then end. -/
theorem GGIter.drain_emit :
    ∀ (n : Nat) (it : GGIter) (C : Cache),
      it.aggregations = some C →
      (∀ k ∈ it.keys, (cacheGet k C).isSome) →
      it.keys.length - it.pos < n →
      it.drain n =
        ((it.keys.drop it.pos).map
          (fun k => NextOut.row (groupRow it.selectedExprs C k))) ++
          [NextOut.eof] := by
  intro n
  induction n with
  | zero =>
    intro it C ha hv hn
    exact absurd hn (Nat.not_lt_zero _)
  | succ n ih =>
    intro it C ha hv hn
    rcases hk : it.keys.get? it.pos with _ | k
    · have hlen : it.keys.length ≤ it.pos := List.get?_eq_none.mp hk
      have hnext : it.next = (.eof, it) := by
        simp only [GGIter.next, ha, GGIter.emit, hk]
      rw [GGIter.drain, hnext, List.drop_eq_nil_of_le hlen]
      rfl
    · have hltpos : it.pos < it.keys.length := by
        by_contra hge
        rw [List.get?_eq_none.mpr (Nat.le_of_not_lt hge)] at hk
        exact Option.noConfusion hk
      have hmem : k ∈ it.keys := List.get?_mem hk
      have hsome := hv k hmem
      rcases hc : cacheGet k C with _ | b
      · rw [hc] at hsome
        simp at hsome
      obtain ⟨r, hr⟩ := evalBuffers_isOk it.selectedExprs b
      have hnext : it.next = (.row r, { it with pos := it.pos + 1 }) := by
        simp only [GGIter.next, ha, GGIter.emit, hk, Option.getD_some, hc, hr]
      have hgr : groupRow it.selectedExprs C k = r := by
        simp only [groupRow, hc, hr]
      have hdrop : it.keys.drop it.pos = k :: it.keys.drop (it.pos + 1) := by
        rcases List.get?_eq_some.mp hk with ⟨hlt, hget⟩
        rw [List.drop_eq_get_cons hlt, hget]
      have hrec := ih { it with pos := it.pos + 1 } C ha hv
        (by simp only []; omega)
      rw [GGIter.drain, hnext, hdrop]
      simp only [List.map_cons, List.cons_append, hgr]
      exact congrArg (NextOut.row r :: ·) hrec

/-- C1: for a GroupBy with a non-empty group-by list, `RowIter` builds the
grouping iterator; over a finite child input on which `compute` succeeds it
emits exactly one row per distinct grouping key (`KS` is duplicate-free and
holds exactly the keys of the input), in first-appearance order of the key
in the input, followed by end. -/
theorem C1_grouping_first_appearance (p : GroupBy) (rows : List Row)
    (C : Cache) (KS : List Nat)
    (hgb : p.groupByExprs ≠ [])
    (hrun : computeGo p.selectedExprs p.groupByExprs rows none [] [] =
      ⟨C, KS, [], none⟩) :
    p.rowIterFor ⟨rows, none⟩ =
        .inr (newGroupByGroupingIter p.selectedExprs p.groupByExprs
          ⟨rows, none⟩) ∧
    KS = firstAppear (rowKeys p.groupByExprs rows) ∧
    KS.Nodup ∧
    (∀ k, k ∈ KS ↔ k ∈ rowKeys p.groupByExprs rows) ∧
    (newGroupByGroupingIter p.selectedExprs p.groupByExprs
        ⟨rows, none⟩).drain (rows.length + 1) =
      KS.map (fun k => NextOut.row (groupRow p.selectedExprs C k)) ++
        [NextOut.eof] := by
  obtain ⟨hkeys, hdom⟩ := computeGo_ok_keys p.selectedExprs p.groupByExprs
    rows [] [] C KS (by intro k; simp [cacheGet]) hrun
  refine ⟨?_, hkeys, ?_, ?_, ?_⟩
  · have hne : p.groupByExprs.isEmpty = false := by
      cases hg : p.groupByExprs with
      | nil => exact absurd hg hgb
      | cons a t => rfl
    simp [GroupBy.rowIterFor, hne]
  · rw [hkeys]
    exact firstAppearAux_nodup _ [] List.nodup_nil
  · intro k
    rw [hkeys]
    have := firstAppearAux_mem (rowKeys p.groupByExprs rows) [] k
    simpa using this
  · have hnext0 :
        (newGroupByGroupingIter p.selectedExprs p.groupByExprs
          ⟨rows, none⟩).next =
          GGIter.emit ⟨p.selectedExprs, p.groupByExprs, some C, KS, 0,
            ⟨[], none⟩⟩ := by
      simp only [GGIter.next, newGroupByGroupingIter, hrun]
    have hdrain_eq :
        (newGroupByGroupingIter p.selectedExprs p.groupByExprs
          ⟨rows, none⟩).drain (rows.length + 1) =
          GGIter.drain ⟨p.selectedExprs, p.groupByExprs, some C, KS, 0,
            ⟨[], none⟩⟩ (rows.length + 1) := by
      rw [GGIter.drain, GGIter.drain, hnext0]
      rfl
    have hlen : KS.length ≤ rows.length := by
      have h1 := firstAppearAux_length (rowKeys p.groupByExprs rows) []
      simp only [List.length_nil, Nat.zero_add] at h1
      have h2 : (rowKeys p.groupByExprs rows).length ≤ rows.length :=
        List.length_filterMap_le _ _
      rw [hkeys]
      exact le_trans h1 h2
    have hdr := GGIter.drain_emit (rows.length + 1)
      ⟨p.selectedExprs, p.groupByExprs, some C, KS, 0, ⟨[], none⟩⟩ C rfl
      (fun k hk => (hdom k).mpr hk)
      (by simp only []; omega)
    rw [hdrain_eq, hdr]
    simp


/-- Witness for C1 on scenario S1 (`SELECT a, SUM(b) FROM t GROUP BY a`,
rows `(1,10),(1,20),(2,30)`): the key list is the first-appearance
deduplication of the row keys and the iterator drains to one row per key
plus end. -/
theorem C1_witness :
    (computeGo s1sel s1gb s1rows none [] []).keys =
        firstAppear (rowKeys s1gb s1rows) ∧
    (newGroupByGroupingIter s1sel s1gb ⟨s1rows, none⟩).drain 4 =
      ((computeGo s1sel s1gb s1rows none [] []).keys).map
          (fun k => NextOut.row
            (groupRow s1sel
              (computeGo s1sel s1gb s1rows none [] []).cache k)) ++
        [NextOut.eof] := by
  have h := C1_grouping_first_appearance ⟨s1sel, s1gb, .tableNode "t"⟩
    s1rows (computeGo s1sel s1gb s1rows none [] []).cache
    (computeGo s1sel s1gb s1rows none [] []).keys
    (by decide) rfl
  exact ⟨h.2.1, h.2.2.2.2⟩

/-! ## C5: grouping keys and collisions -/

/-- The cache entry of each key after an error-free `compute` run is the
fold of the buffer updates over exactly the rows carrying that key. -/
theorem computeGo_ok_cache (sel gb : List Expr) :
    ∀ (rows : List Row) (c : Cache) (ks : List Nat) (C : Cache)
      (KS : List Nat),
      computeGo sel gb rows none c ks = ⟨C, KS, [], none⟩ →
      ∀ k : Nat,
        (∀ b0, cacheGet k c = some b0 →
          ∃ b, accumRows sel b0
              (rows.filter
                (fun r => (groupingKey gb r).toOption == some k)) = .ok b ∧
            cacheGet k C = some b) ∧
        (cacheGet k c = none →
          ((rows.filter
              (fun r => (groupingKey gb r).toOption == some k)) = [] ∧
            cacheGet k C = none) ∨
          ((rows.filter
              (fun r => (groupingKey gb r).toOption == some k)) ≠ [] ∧
            ∃ b, accumRows sel (sel.map fillBuffer)
                (rows.filter
                  (fun r => (groupingKey gb r).toOption == some k)) =
                .ok b ∧
              cacheGet k C = some b)) := by
  intro rows
  induction rows with
  | nil =>
    intro c ks C KS hrun k
    rw [computeGo] at hrun
    obtain ⟨h1, h2, h3, h4⟩ := ComputeRes.mk.injEq .. ▸ hrun
    subst h1
    constructor
    · intro b0 hb0
      exact ⟨b0, rfl, hb0⟩
    · intro hnone
      exact Or.inl ⟨rfl, hnone⟩
  | cons r rest ih =>
    intro c ks C KS hrun k
    rw [computeGo] at hrun
    rcases hk : groupingKey gb r with e | k0
    · rw [hk] at hrun
      simp at hrun
    rw [hk] at hrun
    by_cases hkk : k0 = k
    · -- the head row belongs to group k
      subst hkk
      have hfil : (r :: rest).filter
          (fun x => (groupingKey gb x).toOption == some k0) =
          r :: rest.filter
            (fun x => (groupingKey gb x).toOption == some k0) := by
        rw [List.filter_cons]
        simp [hk, Except.toOption]
      rcases hc : cacheGet k0 c with _ | b0
      · -- first appearance
        simp only [hc, cacheGet_put_same] at hrun
        rcases hu : updateBuffers (sel.map fillBuffer) sel r with e | b2
        · rw [hu] at hrun
          simp at hrun
        rw [hu] at hrun
        have := (ih _ _ _ _ hrun k0).1 b2 (cacheGet_put_same _ _ _)
        obtain ⟨b, hacc, hC⟩ := this
        constructor
        · intro bb hbb
          exact Option.noConfusion hbb
        · intro _
          refine Or.inr ⟨by rw [hfil]; exact List.cons_ne_nil _ _, b, ?_, hC⟩
          rw [hfil, accumRows, hu]
          exact hacc
      · -- key already present
        simp only [hc] at hrun
        rcases hu : updateBuffers b0 sel r with e | b2
        · rw [hu] at hrun
          simp at hrun
        rw [hu] at hrun
        have := (ih _ _ _ _ hrun k0).1 b2 (cacheGet_put_same _ _ _)
        obtain ⟨b, hacc, hC⟩ := this
        constructor
        · intro bb hbb
          obtain rfl := Option.some.inj hbb
          refine ⟨b, ?_, hC⟩
          rw [hfil, accumRows, hu]
          exact hacc
        · intro hnone
          exact Option.noConfusion hnone
    · -- the head row belongs to another group
      have hfil : (r :: rest).filter
          (fun x => (groupingKey gb x).toOption == some k) =
          rest.filter
            (fun x => (groupingKey gb x).toOption == some k) := by
        rw [List.filter_cons]
        simp [hk, Except.toOption, hkk]
      rcases hc : cacheGet k0 c with _ | b0
      · simp only [hc, cacheGet_put_same] at hrun
        rcases hu : updateBuffers (sel.map fillBuffer) sel r with e | b2
        · rw [hu] at hrun
          simp at hrun
        rw [hu] at hrun
        have hih := ih _ _ _ _ hrun k
        have hkc : cacheGet k (cachePut k0 b2
            (cachePut k0 (sel.map fillBuffer) c)) = cacheGet k c := by
          rw [cacheGet_put_other (fun he => hkk he.symm),
            cacheGet_put_other (fun he => hkk he.symm)]
        constructor
        · intro bb hbb
          obtain ⟨b, hacc, hC⟩ := hih.1 bb (by rw [hkc]; exact hbb)
          exact ⟨b, by rw [hfil]; exact hacc, hC⟩
        · intro hnone
          rcases hih.2 (by rw [hkc]; exact hnone) with ⟨h1, h2⟩ | ⟨h1, h2⟩
          · exact Or.inl ⟨by rw [hfil]; exact h1, h2⟩
          · exact Or.inr ⟨by rw [hfil]; exact h1, by rw [hfil]; exact h2⟩
      · simp only [hc] at hrun
        rcases hu : updateBuffers b0 sel r with e | b2
        · rw [hu] at hrun
          simp at hrun
        rw [hu] at hrun
        have hih := ih _ _ _ _ hrun k
        have hkc : cacheGet k (cachePut k0 b2 c) = cacheGet k c :=
          cacheGet_put_other (fun he => hkk he.symm) _ _
        constructor
        · intro bb hbb
          obtain ⟨b, hacc, hC⟩ := hih.1 bb (by rw [hkc]; exact hbb)
          exact ⟨b, by rw [hfil]; exact hacc, hC⟩
        · intro hnone
          rcases hih.2 (by rw [hkc]; exact hnone) with ⟨h1, h2⟩ | ⟨h1, h2⟩
          · exact Or.inl ⟨by rw [hfil]; exact h1, h2⟩
          · exact Or.inr ⟨by rw [hfil]; exact h1, by rw [hfil]; exact h2⟩


set_option maxRecDepth 100000 in
/-- C5 as stated is false in its collision half: there is no secondary
equality check, so two *distinct* key values whose CRC64-ISO checksums
collide are accumulated into a single group.  The quoted printed forms of
the strings below collide, and grouping two rows carrying them yields one
group of COUNT 2 instead of two groups. -/
theorem C5_counterexample :
    ("0000000A0000" : String) ≠ "7000000Q4000" ∧
    groupingKey [.getField 0 .tText "a" false] [.vStr "0000000A0000"] =
      groupingKey [.getField 0 .tText "a" false] [.vStr "7000000Q4000"] ∧
    GGIter.drain (newGroupByGroupingIter [Expr.countAgg]
        [.getField 0 .tText "a" false]
        ⟨[[.vStr "0000000A0000"], [.vStr "7000000Q4000"]], none⟩) 3 =
      [NextOut.row [.vInt 2], NextOut.eof] := by
  refine ⟨by decide, by rfl, by rfl⟩

/-- C5 amended: the grouping key is the CRC64-ISO checksum of the
comma-joined `%#v`-printed group-by values; a cache entry (group) exists
for a key exactly when some input row hashes to it, and the entry is the
fold of the buffer updates over exactly the rows hashing to that key —
so two rows land in the same group iff their checksums are equal, and
distinct values that collide are merged (no secondary equality check). -/
theorem C5_amended (sel gb : List Expr) (rows : List Row) (C : Cache)
    (KS : List Nat)
    (hrun : computeGo sel gb rows none [] [] = ⟨C, KS, [], none⟩) :
    (∀ (r : Row) (vs : List Value),
      gb.mapM (fun e => evalExpr e r) = .ok vs →
      groupingKey gb r = .ok (crc64checksum (utf8Bytes
        (String.intercalate "," (vs.map goRepr))))) ∧
    (∀ k : Nat, k ∈ KS ↔
      ∃ r ∈ rows, (groupingKey gb r).toOption = some k) ∧
    (∀ k ∈ KS, ∃ b,
      accumRows sel (sel.map fillBuffer)
          (rows.filter (fun r => (groupingKey gb r).toOption == some k)) =
        .ok b ∧
      cacheGet k C = some b) := by
  obtain ⟨hkeys, hdom⟩ := computeGo_ok_keys sel gb rows [] [] C KS
    (by intro k; simp [cacheGet]) hrun
  have hmem : ∀ k : Nat, k ∈ KS ↔
      ∃ r ∈ rows, (groupingKey gb r).toOption = some k := by
    intro k
    rw [hkeys]
    have h1 := firstAppearAux_mem (rowKeys gb rows) [] k
    have h2 : k ∈ rowKeys gb rows ↔
        ∃ r ∈ rows, (groupingKey gb r).toOption = some k :=
      List.mem_filterMap
    simp only [List.not_mem_nil, false_or] at h1
    rw [h1, h2]
  refine ⟨?_, hmem, ?_⟩
  · intro r vs hvs
    rw [groupingKey, hvs]
    rfl
  · intro k hk
    have hinit : cacheGet k ([] : Cache) = none := rfl
    rcases (computeGo_ok_cache sel gb rows [] [] C KS hrun k).2 hinit with
      ⟨hfil, _⟩ | ⟨_, b, hacc, hC⟩
    · obtain ⟨r, hr, hkr⟩ := (hmem k).mp hk
      have : r ∈ rows.filter
          (fun r => (groupingKey gb r).toOption == some k) :=
        List.mem_filter.mpr ⟨hr, by simp [hkr]⟩
      rw [hfil] at this
      exact absurd this (List.not_mem_nil _)
    · exact ⟨b, hacc, hC⟩

/-- Witness for C5's amended theorem at scenario S1: the key of row
`(1,10)` is the checksum of the printed group-by value `1`. -/
theorem C5_amended_witness :
    groupingKey s1gb [Value.vInt 1, Value.vInt 10] =
      .ok (crc64checksum (utf8Bytes (String.intercalate ","
        ([Value.vInt 1].map goRepr)))) := by
  have h := C5_amended s1sel s1gb s1rows
    (computeGo s1sel s1gb s1rows none [] []).cache
    (computeGo s1sel s1gb s1rows none [] []).keys rfl
  exact h.1 [Value.vInt 1, Value.vInt 10] [Value.vInt 1] rfl

end Gms
